import Mathlib

/-!
Verification of the independent trade-execution engine.

Shallow embedding of the Python sources:
  * `risk/risk_managment.py` — `RiskManager` (capital, kill switch, sizing)
  * `database/trade_repo.py` — `TradeRepository.apply_entry_fill` / `apply_exit_fill`
  * `execution/trade_controller.py` — `TradeController.on_order_filled` (ledger deltas)
  * `execution/exit_manager.py` — `ExitManager.on_candle_close` (breakeven / trailing)
  * `broker/paper_broker.py` — `PaperBroker._process_market_order` (BUY path)

Prices and cash are modelled as rationals, quantities as integers.
-/

namespace TradeExec

/-- Order status constants from `execution/trade_controller.py` (`class OrderStatus`). -/
inductive OrderStatus where
  | PENDING
  | PARTIAL
  | FILLED
  | CANCELLED
  | REJECTED
  | EXPIRED
  deriving DecidableEq, Repr

/-- Aggregate position status used by `database/trade_repo.py` (`"OPEN"` / `"CLOSED"`). -/
inductive PosStatus where
  | OPEN
  | CLOSED
  deriving DecidableEq, Repr

/-! ## RiskManager (`risk/risk_managment.py`) -/

/-- The slice of the position dict `RiskManager.on_position_closed` reads:
`entry_price` and the fallback `entry_price_original` (both may be absent). -/
structure RMPosition where
  entry_price : Option ℚ
  entry_price_original : Option ℚ
  deriving DecidableEq, Repr

/-- Mutable state of `RiskManager`: `realized_pnl`, `trading_allowed` and the
`positions` dict (`order_id -> position`), modelled as an association list. -/
structure RiskState where
  realized_pnl : ℚ
  trading_allowed : Bool
  positions : List (String × RMPosition)
  deriving DecidableEq, Repr

/-- Initial `RiskManager` state from `__init__`: `realized_pnl = 0.0`,
`trading_allowed = True`, empty `positions`. -/
def RiskState.init : RiskState :=
  { realized_pnl := 0, trading_allowed := true, positions := [] }

/-- `RiskManager.can_take_new_trade`. -/
def canTakeNewTrade (s : RiskState) : Bool :=
  s.trading_allowed

/-- `RiskManager.disable_trading`. -/
def disableTrading (s : RiskState) : RiskState :=
  { s with trading_allowed := false }

/-- `RiskManager.on_new_position`: `self.positions[order_id] = position`. -/
def onNewPosition (s : RiskState) (orderId : String) (p : RMPosition) : RiskState :=
  { s with positions := (orderId, p) :: s.positions.filter (fun kv => kv.1 ≠ orderId) }

/-- Entry-price resolution inside `RiskManager.on_position_closed`: the
`entry_price` argument if given, else the stored `entry_price`, else
`entry_price_original`, else the exit price itself. -/
def resolveEntryPrice (arg : Option ℚ) (pos : RMPosition) (exitPrice : ℚ) : ℚ :=
  match arg with
  | some e => e
  | none =>
    match pos.entry_price with
    | some e => e
    | none =>
      match pos.entry_price_original with
      | some e => e
      | none => exitPrice

/-- `RiskManager.on_position_closed`: ignores unknown `order_id`; otherwise adds
`(exit_price - entry_price) * quantity` to `realized_pnl`, removes the position,
and disables trading when `abs(realized_pnl) >= max_daily_loss`. -/
def onPositionClosed (maxDailyLoss : ℚ) (s : RiskState) (orderId : String)
    (exitPrice : ℚ) (quantity : ℤ) (entryArg : Option ℚ) : RiskState :=
  match s.positions.lookup orderId with
  | none => s
  | some pos =>
    let entry := resolveEntryPrice entryArg pos exitPrice
    let pnl := (exitPrice - entry) * (quantity : ℚ)
    let realized := s.realized_pnl + pnl
    let s' : RiskState :=
      { s with realized_pnl := realized,
               positions := s.positions.filter (fun kv => kv.1 ≠ orderId) }
    if |realized| ≥ maxDailyLoss then disableTrading s' else s'

/-- The `RiskManager` operations that touch the risk state during a session. -/
inductive RiskOp where
  | newPosition (orderId : String) (p : RMPosition)
  | positionClosed (orderId : String) (exitPrice : ℚ) (quantity : ℤ) (entryArg : Option ℚ)
  deriving DecidableEq, Repr

/-- One `RiskManager` call dispatched on the operation. -/
def riskStep (maxDailyLoss : ℚ) (s : RiskState) (op : RiskOp) : RiskState :=
  match op with
  | .newPosition id p => onNewPosition s id p
  | .positionClosed id px q e => onPositionClosed maxDailyLoss s id px q e

/-- A session state holding one registered position entered at price 100. -/
def riskStateExample : RiskState :=
  onNewPosition RiskState.init "ORD-1"
    { entry_price := some 100, entry_price_original := none }

/-- Position sizing mode from `config["risk"]["mode"]`. -/
inductive SizingMode where
  | fixed_lot
  | percent
  | other (s : String)
  deriving DecidableEq, Repr

/-- `RiskManager.calculate_quantity`: quantity 0 for `entry_price <= 0`, then
`fixed_lot` (`value * lot_size`) or `percent`
(`int(capital_to_use // (entry_price * lot_size)) * lot_size`, 0 when no full
lot fits); any other mode raises `ValueError`. -/
def calculate_quantity (availableCapital : ℚ) (mode : SizingMode) (value : ℚ)
    (entryPrice : ℚ) (lotSize : ℤ) : Except String ℚ :=
  if entryPrice ≤ 0 then
    .ok 0
  else
    match mode with
    | .fixed_lot => .ok (value * (lotSize : ℚ))
    | .percent =>
      let capitalToUse := availableCapital * value / 100
      let maxLots : ℤ := ⌊capitalToUse / (entryPrice * (lotSize : ℚ))⌋
      if maxLots ≤ 0 then .ok 0 else .ok ((maxLots : ℚ) * (lotSize : ℚ))
    | .other m => .error ("Unknown position sizing mode: " ++ m)

/-! ## TradeRepository (`database/trade_repo.py`) -/

/-- The aggregated per-symbol position document written by
`TradeRepository.apply_entry_fill` / `apply_exit_fill`.  `closed_at` records
whether the `closed_at` timestamp has been set. -/
structure PositionAgg where
  quantity : ℤ
  opened_quantity : ℤ
  closed_quantity : ℤ
  entry_price : ℚ
  exit_price : Option ℚ
  last_price : ℚ
  realized_pnl : ℚ
  unrealized_pnl : ℚ
  net_pnl : ℚ
  order_ids : List String
  exit_order_ids : List String
  status : PosStatus
  closed_at : Bool
  deriving DecidableEq, Repr

/-- `TradeRepository._compute_pnls`: unrealized PnL on the open quantity at the
last price, and net = realized + unrealized. -/
def computePnls (entryPrice lastPrice : ℚ) (openQty : ℤ) (realized : ℚ) : ℚ × ℚ :=
  let unrealized := (lastPrice - entryPrice) * (openQty : ℚ)
  (unrealized, realized + unrealized)

/-- Append `order_id` to a list unless it is falsy or already present
(`if order_id and order_id not in order_ids: order_ids.append(order_id)`). -/
def appendOrderId (ids : List String) (oid : Option String) : List String :=
  match oid with
  | none => ids
  | some i => if i ∈ ids then ids else ids ++ [i]

/-- `TradeRepository.apply_entry_fill` for one symbol.  The argument `agg` is the
record `find_one({"symbol": symbol, "status": "OPEN"})` would return (`none`
when no OPEN aggregate exists).  Quantity `<= 0` is a no-op; with no OPEN
aggregate a new one is created with this fill as baseline; otherwise the open
quantity grows and the entry price becomes the quantity-weighted average. -/
def applyEntryFill (agg : Option PositionAgg) (orderId : Option String)
    (quantity : ℤ) (fillPrice : ℚ) : Option PositionAgg :=
  if quantity ≤ 0 then agg
  else
    match agg with
    | none =>
      some { quantity := quantity
             opened_quantity := quantity
             closed_quantity := 0
             entry_price := fillPrice
             exit_price := none
             last_price := fillPrice
             realized_pnl := 0
             unrealized_pnl := 0
             net_pnl := 0
             order_ids := appendOrderId [] orderId
             exit_order_ids := []
             status := .OPEN
             closed_at := false }
    | some a =>
      let totalQty := a.quantity + quantity
      let weightedEntry :=
        if 0 < totalQty then
          (a.entry_price * (a.quantity : ℚ) + fillPrice * (quantity : ℚ)) / (totalQty : ℚ)
        else fillPrice
      let openedQty := a.opened_quantity + quantity
      let lastPrice := a.last_price
      let pnls := computePnls weightedEntry lastPrice totalQty a.realized_pnl
      some { a with
             entry_price := weightedEntry
             quantity := totalQty
             opened_quantity := openedQty
             order_ids := appendOrderId a.order_ids orderId
             last_price := lastPrice
             unrealized_pnl := pnls.1
             net_pnl := pnls.2 }

/-- `TradeRepository.apply_exit_fill` for one symbol.  `agg` is the stored
position record for the symbol, if any; `find_one` only matches it when its
status is OPEN.  Quantity `<= 0`, a missing or non-OPEN aggregate, or open
quantity `<= 0` are no-ops; otherwise the exit quantity is clamped to the open
quantity, realized PnL accumulates, the exit price is the weighted average over
all closed quantity, and the aggregate becomes CLOSED (with `closed_at` set)
exactly when the remaining open quantity is 0. -/
def applyExitFill (agg : Option PositionAgg) (exitOrderId : Option String)
    (quantity : ℤ) (exitPrice : ℚ) : Option PositionAgg :=
  if quantity ≤ 0 then agg
  else
    match agg with
    | none => none
    | some a =>
      if a.status ≠ .OPEN then some a
      else if a.quantity ≤ 0 then some a
      else
        let openQty := a.quantity
        let exitQty := min quantity openQty
        let px := exitPrice
        let realizedNew := a.realized_pnl + (px - a.entry_price) * (exitQty : ℚ)
        let closedQtyNew := a.closed_quantity + exitQty
        let prevExitPx := a.exit_price.getD 0
        let weightedExit :=
          if 0 < closedQtyNew then
            (prevExitPx * (a.closed_quantity : ℚ) + px * (exitQty : ℚ)) / (closedQtyNew : ℚ)
          else px
        let remainingQty := openQty - exitQty
        let pnls := computePnls a.entry_price px remainingQty realizedNew
        some { a with
               quantity := remainingQty
               closed_quantity := closedQtyNew
               exit_price := some weightedExit
               exit_order_ids := appendOrderId a.exit_order_ids exitOrderId
               last_price := px
               realized_pnl := realizedNew
               unrealized_pnl := pnls.1
               net_pnl := pnls.2
               status := if remainingQty = 0 then .CLOSED else a.status
               closed_at := if remainingQty = 0 then true else a.closed_at }

/-- A concrete OPEN aggregate position: 50 open at average entry 104. -/
def openAggExample : PositionAgg :=
  { quantity := 50, opened_quantity := 50, closed_quantity := 0, entry_price := 104,
    exit_price := none, last_price := 104, realized_pnl := 0, unrealized_pnl := 0,
    net_pnl := 0, order_ids := ["ORD-1"], exit_order_ids := [], status := .OPEN,
    closed_at := false }

/-! ## TradeController.on_order_filled (`execution/trade_controller.py`) -/

/-- The fill event the broker delivers to `TradeController.on_order_filled`
(`OrderFilledEvent` in `broker/paper_broker.py`). -/
structure FillEvent where
  quantity : ℤ
  filled_quantity : ℤ
  filled_price : ℚ
  is_partial : Bool
  deriving DecidableEq, Repr

/-- An ENTRY row of the trades ledger as written by
`TradeRepository.save_trade(order_id, "ENTRY", price, quantity, fill_number)`. -/
structure EntryTrade where
  quantity : ℤ
  price : ℚ
  fill_number : ℤ
  deriving DecidableEq, Repr

/-- Position-ledger-relevant state of one tracked position inside
`TradeController.on_order_filled`: the `_fills_processed`,
`_accounted_filled_quantity` and `_next_fill_number` trackers on the position
dict, the ENTRY rows of the trades collection, and the aggregated OPEN
position for the symbol. -/
structure LedgerState where
  fillsProcessed : ℕ
  accountedFilledQuantity : ℤ
  nextFillNumber : ℤ
  trades : List EntryTrade
  agg : Option PositionAgg
  deriving DecidableEq, Repr

/-- One iteration of the `for fill_qty, fill_price, _ in new_fills:` loop:
save an ENTRY trade, apply the entry fill to the aggregate, bump the fill
number. -/
def recordEntryFill (orderId : Option String) (s : LedgerState) (fill : ℤ × ℚ) : LedgerState :=
  { s with
    trades := s.trades ++ [{ quantity := fill.1, price := fill.2, fill_number := s.nextFillNumber }]
    agg := applyEntryFill s.agg orderId fill.1 fill.2
    nextFillNumber := s.nextFillNumber + 1 }

/-- The delta-only ledger update of `TradeController.on_order_filled`.
When the broker exposes `order_fills` for the order, only the fills past
`_fills_processed` are recorded; otherwise the fallback records the delta of
`event.filled_quantity` over `_accounted_filled_quantity` at the event price,
when positive. -/
def processEntryFillDeltas (orderId : Option String) (individualFills : List (ℤ × ℚ))
    (event : FillEvent) (s : LedgerState) : LedgerState :=
  if individualFills ≠ [] then
    let newFills := individualFills.drop s.fillsProcessed
    let s' := newFills.foldl (recordEntryFill orderId) s
    { s' with fillsProcessed := individualFills.length }
  else
    let delta := event.filled_quantity - s.accountedFilledQuantity
    if 0 < delta then
      let s' := recordEntryFill orderId s (delta, event.filled_price)
      { s' with accountedFilledQuantity := event.filled_quantity }
    else s

/-- Status written to the tracked position by `on_order_filled` after the
ledger update: `OrderStatus.PARTIAL` when `event.is_partial`, else
`OrderStatus.FILLED`. -/
def statusAfterFill (event : FillEvent) : OrderStatus :=
  if FillEvent.is_partial event then .PARTIAL else .FILLED

/-- The fill event built by `PaperBroker._process_limit_order_fill` and
`PaperBroker._execute_stop_order`: the whole order quantity fills at once and
`is_partial=False`. -/
def limitOrStopFillEvent (quantity : ℤ) (fillPrice : ℚ) : FillEvent :=
  { quantity := quantity
    filled_quantity := quantity
    filled_price := fillPrice
    is_partial := false }

/-- A concrete half-filled event (50 of 100 filled). -/
def partialFillExample : FillEvent :=
  { quantity := 100, filled_quantity := 50, filled_price := 10, is_partial := true }

/-- A concrete fully-filled event (100 of 100 filled). -/
def fullFillExample : FillEvent :=
  { quantity := 100, filled_quantity := 100, filled_price := 10, is_partial := false }

/-- `applyEntryFill` as a fold step over a list of `(quantity, price)` fills
delivered for one symbol. -/
def entryFillStep (orderId : Option String) (agg : Option PositionAgg)
    (fill : ℤ × ℚ) : Option PositionAgg :=
  applyEntryFill agg orderId fill.1 fill.2

/-- The fills `apply_entry_fill` does not skip: those with positive quantity. -/
def posFilter (fills : List (ℤ × ℚ)) : List (ℤ × ℚ) :=
  fills.filter fun f => 0 < f.1

/-- Total quantity of the fills `apply_entry_fill` does not skip
(those with positive quantity).  Spec-side quantity sum of the
quantity-weighted average. -/
def posQty (fills : List (ℤ × ℚ)) : ℤ :=
  ((posFilter fills).map Prod.fst).sum

/-- Total notional `sum(q_i * p_i)` of the fills with positive quantity.
Spec-side numerator of the quantity-weighted average. -/
def posNotional (fills : List (ℤ × ℚ)) : ℚ :=
  ((posFilter fills).map fun f => (f.1 : ℚ) * f.2).sum

/-! ## ExitManager.on_candle_close (`execution/exit_manager.py`) -/

/-- The configuration fields `on_candle_close` reads. -/
structure ExitConfig where
  sl_pct : ℚ
  breakeven_enabled : Bool
  breakeven_trigger_pct : ℚ
  trailing_sl : Bool
  deriving DecidableEq, Repr

/-- The per-position tracking fields `on_candle_close` reads and writes. -/
structure ExitPosition where
  sl_price : ℚ
  highest_price : ℚ
  lowest_price : ℚ
  breakeven_triggered : Bool
  entry_price_original : ℚ
  deriving DecidableEq, Repr

/-- The body of `ExitManager.on_candle_close` for one position at option
price `ltp`: skip when `ltp <= 0`; update the high/low water marks; if
breakeven is enabled, not yet triggered, and profit since the original entry
reaches the trigger percent, move the stop to the original entry and latch
`breakeven_triggered`; then, only if breakeven has not triggered, raise the
stop to `ltp * (1 - sl_pct / 100)` when that exceeds the current stop. -/
def onCandleClosePos (cfg : ExitConfig) (ltp : ℚ) (p : ExitPosition) : ExitPosition :=
  if ltp ≤ 0 then p
  else
    let p1 := { p with highest_price := max p.highest_price ltp
                       lowest_price := min p.lowest_price ltp }
    let p2 :=
      if cfg.breakeven_enabled ∧ ¬p1.breakeven_triggered ∧
          (ltp - p1.entry_price_original) / p1.entry_price_original * 100 ≥
            cfg.breakeven_trigger_pct then
        { p1 with sl_price := p1.entry_price_original, breakeven_triggered := true }
      else p1
    if cfg.trailing_sl ∧ ¬p2.breakeven_triggered ∧
        ltp * (1 - cfg.sl_pct / 100) > p2.sl_price then
      { p2 with sl_price := ltp * (1 - cfg.sl_pct / 100) }
    else p2

/-! ## PaperBroker._process_market_order, BUY path (`broker/paper_broker.py`) -/

/-- State threaded through the partial-fill loop of `_process_market_order`:
cash balance, total filled quantity, total cost and the individual fills. -/
structure MarketFillState where
  balance : ℚ
  totalFilled : ℤ
  totalCost : ℚ
  fills : List (ℤ × ℚ)
  deriving DecidableEq, Repr

/-- One random choice per loop iteration: the price variation drawn from
`random.uniform(-0.01, 0.01)` and the fill fraction drawn from
`random.uniform(0.3, 0.7)` (the fraction is unused on the last iteration). -/
def MarketChoice := ℚ × ℚ

/-- The `for i in range(num_fills):` loop of `_process_market_order` for a BUY.
Each iteration stops if the order is already filled, perturbs the price,
sizes the slice (the whole remainder on the last iteration, else
`int(remaining * fraction)`), and takes the slice only when its cost does not
exceed the remaining balance (otherwise the loop breaks). -/
def marketFillLoop (quantity : ℤ) (currentPrice : ℚ) :
    List (ℚ × ℚ) → MarketFillState → MarketFillState
  | [], s => s
  | (variation, fraction) :: rest, s =>
    if quantity ≤ s.totalFilled then s
    else
      let fillPrice := currentPrice * (1 + variation)
      let remaining := quantity - s.totalFilled
      let fillQty : ℤ := if rest = [] then remaining else ⌊(remaining : ℚ) * fraction⌋
      let fillCost := fillPrice * (fillQty : ℚ)
      if fillCost > s.balance then s
      else
        marketFillLoop quantity currentPrice rest
          { balance := s.balance - fillCost
            totalFilled := s.totalFilled + fillQty
            totalCost := s.totalCost + fillCost
            fills := s.fills ++ [(fillQty, fillPrice)] }

/-- Result of `_process_market_order` for a BUY: final order status, remaining
balance, total filled quantity, and the fill event passed to the callback
(`none` when the order is REJECTED and no callback fires). -/
structure MarketOrderResult where
  status : OrderStatus
  balance : ℚ
  totalFilled : ℤ
  event : Option FillEvent
  deriving DecidableEq, Repr

/-- `PaperBroker._process_market_order` for a BUY with a known price: run the
partial-fill loop over the drawn random choices; if nothing filled the order
is REJECTED and no callback fires; otherwise the status is PARTIAL or FILLED
and the callback receives one event at the average fill price whose
`is_partial` flag is set exactly when the total filled quantity is below the
order quantity. -/
def processMarketOrderBuy (balance : ℚ) (quantity : ℤ) (currentPrice : ℚ)
    (choices : List (ℚ × ℚ)) : MarketOrderResult :=
  let s := marketFillLoop quantity currentPrice choices
    { balance := balance, totalFilled := 0, totalCost := 0, fills := [] }
  if s.totalFilled = 0 then
    { status := .REJECTED, balance := s.balance, totalFilled := 0, event := none }
  else
    let avgPrice := s.totalCost / (s.totalFilled : ℚ)
    let isPartial := s.totalFilled < quantity
    { status := if isPartial then .PARTIAL else .FILLED
      balance := s.balance
      totalFilled := s.totalFilled
      event := some { quantity := quantity
                      filled_quantity := s.totalFilled
                      filled_price := avgPrice
                      is_partial := isPartial } }

/-! ## Theorems -/

/-- C1: replaying the same fill event through the ledger-update path of
`TradeController.on_order_filled` is idempotent: the second call computes a
zero new-fill delta (empty `new_fills` slice, resp. zero
`filled_quantity` delta) and leaves the trades ledger, the aggregate
position and all trackers exactly as after the first call. -/
theorem entry_fill_replay_idempotent (orderId : Option String)
    (individualFills : List (ℤ × ℚ)) (event : FillEvent) (s : LedgerState) :
    processEntryFillDeltas orderId individualFills event
        (processEntryFillDeltas orderId individualFills event s) =
      processEntryFillDeltas orderId individualFills event s := by
  unfold processEntryFillDeltas
  by_cases h : individualFills = []
  · subst h
    simp only [ne_eq, not_true_eq_false, if_false]
    by_cases hd : 0 < event.filled_quantity - s.accountedFilledQuantity
    · simp [hd]
    · simp [hd]
  · simp [h, List.drop_length]

/-- C10: `RiskManager.on_position_closed` with an `order_id` that is not in
`self.positions` silently returns, leaving the entire risk state (realized
PnL, trading flag, positions) unchanged. -/
theorem unknown_order_close_ignored (maxDailyLoss : ℚ) (s : RiskState)
    (orderId : String) (exitPrice : ℚ) (quantity : ℤ) (entryArg : Option ℚ)
    (h : s.positions.lookup orderId = none) :
    onPositionClosed maxDailyLoss s orderId exitPrice quantity entryArg = s := by
  unfold onPositionClosed
  rw [h]

/-- Witness for C10 at a concrete state: closing an order that was never
registered leaves the initial risk state untouched. -/
theorem unknown_order_close_ignored_witness :
    onPositionClosed 500 RiskState.init "ORD-1" 42 10 none = RiskState.init :=
  unknown_order_close_ignored 500 RiskState.init "ORD-1" 42 10 none rfl

/-- C6: `RiskManager.calculate_quantity` returns 0 whenever `entry_price <= 0`
(for every mode); for positive entry price, `fixed_lot` returns
`value * lot_size`, `percent` returns
`floor((capital * value / 100) / (entry_price * lot_size)) * lot_size` with 0
when that floor is non-positive, and any other mode raises the
invalid-configuration `ValueError`; concretely capital 100000, value 10,
entry price 50, lot size 25 size to quantity 200. -/
theorem calculate_quantity_spec (availableCapital value entryPrice : ℚ) (lotSize : ℤ) :
    ((entryPrice ≤ 0 → ∀ mode,
        calculate_quantity availableCapital mode value entryPrice lotSize = .ok 0) ∧
     (0 < entryPrice →
        calculate_quantity availableCapital .fixed_lot value entryPrice lotSize =
          .ok (value * (lotSize : ℚ))) ∧
     (0 < entryPrice →
        calculate_quantity availableCapital .percent value entryPrice lotSize =
          .ok (if ⌊availableCapital * value / 100 / (entryPrice * (lotSize : ℚ))⌋ ≤ 0 then 0
               else ((⌊availableCapital * value / 100 / (entryPrice * (lotSize : ℚ))⌋ : ℚ) *
                 (lotSize : ℚ)))) ∧
     (0 < entryPrice → ∀ m,
        calculate_quantity availableCapital (.other m) value entryPrice lotSize =
          .error ("Unknown position sizing mode: " ++ m))) ∧
    calculate_quantity 100000 .percent 10 50 25 = .ok 200 := by
  refine ⟨⟨?_, ?_, ?_, ?_⟩, ?_⟩
  · intro he mode
    unfold calculate_quantity
    rw [if_pos he]
  · intro he
    unfold calculate_quantity
    rw [if_neg (not_le.mpr he)]
  · intro he
    unfold calculate_quantity
    rw [if_neg (not_le.mpr he)]
    dsimp only
    split_ifs <;> rfl
  · intro he m
    unfold calculate_quantity
    rw [if_neg (not_le.mpr he)]
  · norm_num [calculate_quantity]

/-- Witness for C6 at concrete inputs: the scenario sizing yields 200, a
fixed-lot sizing yields `value * lot_size`, a non-positive entry price yields
0 in every mode, and an unknown mode errors out. -/
theorem calculate_quantity_spec_witness :
    calculate_quantity 100000 .percent 10 50 25 = .ok 200 ∧
    calculate_quantity 100000 .fixed_lot 2 50 25 = .ok 50 ∧
    calculate_quantity 100000 .percent 10 0 25 = .ok 0 ∧
    calculate_quantity 100000 (.other "martingale") 10 50 25 =
      .error "Unknown position sizing mode: martingale" :=
  ⟨(calculate_quantity_spec 100000 10 50 25).2,
   by
    have h := (calculate_quantity_spec 100000 2 50 25).1.2.1 (by norm_num)
    rw [h]; norm_num,
   (calculate_quantity_spec 100000 10 0 25).1.1 le_rfl .percent,
   (calculate_quantity_spec 100000 10 50 25).1.2.2.2 (by norm_num) "martingale"⟩

/-- C8: the status `TradeController.on_order_filled` writes to the tracked
position is `PARTIAL` exactly when the event's filled quantity is below the
requested order quantity and `FILLED` exactly when it reaches it, for every
fill event whose `is_partial` flag agrees with that comparison — which is the
case for every event the paper broker constructs (market path, and the
limit/stop paths that always fill the whole quantity with
`is_partial=False`). -/
theorem fill_status_partial_iff_incomplete :
    (∀ e : FillEvent, FillEvent.is_partial e = decide (e.filled_quantity < e.quantity) →
      ((statusAfterFill e = .FILLED ↔ e.quantity ≤ e.filled_quantity) ∧
       (statusAfterFill e = .PARTIAL ↔ e.filled_quantity < e.quantity))) ∧
    (∀ (balance : ℚ) (qty : ℤ) (price : ℚ) (choices : List (ℚ × ℚ)) (ev : FillEvent),
      (processMarketOrderBuy balance qty price choices).event = some ev →
      FillEvent.is_partial ev = decide (ev.filled_quantity < ev.quantity)) ∧
    (∀ (qty : ℤ) (price : ℚ),
      FillEvent.is_partial (limitOrStopFillEvent qty price) =
        decide ((limitOrStopFillEvent qty price).filled_quantity <
          (limitOrStopFillEvent qty price).quantity)) := by
  refine ⟨?_, ?_, ?_⟩
  · intro e he
    unfold statusAfterFill
    rw [he]
    by_cases h : e.filled_quantity < e.quantity
    · simp [h, not_le.mpr h]
    · simp [h, not_lt.mp h]
  · intro balance qty price choices ev hev
    unfold processMarketOrderBuy at hev
    by_cases h : (marketFillLoop qty price choices
        { balance := balance, totalFilled := 0, totalCost := 0, fills := [] }).totalFilled = 0
    · simp [h] at hev
    · simp only [h, if_false] at hev
      obtain rfl : _ = ev := Option.some_injective _ hev
      rfl
  · intro qty price
    simp [limitOrStopFillEvent]

/-- Witness for C8 at concrete events: a half-filled event is marked PARTIAL
and a complete event is marked FILLED. -/
theorem fill_status_partial_iff_incomplete_witness :
    statusAfterFill partialFillExample = .PARTIAL ∧
    statusAfterFill fullFillExample = .FILLED :=
  ⟨(fill_status_partial_iff_incomplete.1 partialFillExample (by decide)).2.mpr (by decide),
   (fill_status_partial_iff_incomplete.1 fullFillExample (by decide)).1.mpr (by decide)⟩

/-- No `RiskManager` operation ever turns the trading flag back on. -/
lemma riskStep_preserves_disabled (maxDailyLoss : ℚ) (s : RiskState) (op : RiskOp)
    (h : s.trading_allowed = false) :
    (riskStep maxDailyLoss s op).trading_allowed = false := by
  cases op with
  | newPosition id p =>
    simpa [riskStep, onNewPosition] using h
  | positionClosed id px q e =>
    simp only [riskStep, onPositionClosed]
    cases hl : s.positions.lookup id with
    | none => exact h
    | some pos =>
      dsimp only
      split_ifs <;> simp [disableTrading, h]

/-- Over any sequence of `RiskManager` operations, a disabled trading flag
stays disabled. -/
lemma riskSteps_preserve_disabled (maxDailyLoss : ℚ) (ops : List RiskOp) (s : RiskState)
    (h : s.trading_allowed = false) :
    (ops.foldl (riskStep maxDailyLoss) s).trading_allowed = false := by
  induction ops generalizing s with
  | nil => exact h
  | cons op ops ih =>
    exact ih _ (riskStep_preserves_disabled maxDailyLoss s op h)

/-- A close of a registered position that leaves
`|realized_pnl| >= max_daily_loss` disables trading. -/
lemma onPositionClosed_kill (maxDailyLoss : ℚ) (s : RiskState) (orderId : String)
    (exitPrice : ℚ) (quantity : ℤ) (entryArg : Option ℚ)
    (h1 : (s.positions.lookup orderId).isSome)
    (h2 : maxDailyLoss ≤
      |(onPositionClosed maxDailyLoss s orderId exitPrice quantity entryArg).realized_pnl|) :
    (onPositionClosed maxDailyLoss s orderId exitPrice quantity entryArg).trading_allowed =
      false := by
  unfold onPositionClosed at h2 ⊢
  cases hl : s.positions.lookup orderId with
  | none => rw [hl] at h1; exact absurd h1 (by simp)
  | some pos =>
    rw [hl] at h2
    dsimp only at h2 ⊢
    split_ifs at h2 ⊢ with hk
    · rfl
    · exact absurd h2 hk

/-- C4: once a registered position is closed and the cumulative realized PnL
magnitude reaches `max_daily_loss`, `trading_allowed` flips to false and
`can_take_new_trade()` returns false after every further sequence of
`RiskManager` operations in the session — nothing ever re-enables trading. -/
theorem kill_switch_latches (maxDailyLoss : ℚ) (s : RiskState) (orderId : String)
    (exitPrice : ℚ) (quantity : ℤ) (entryArg : Option ℚ) (ops : List RiskOp)
    (h1 : (s.positions.lookup orderId).isSome)
    (h2 : maxDailyLoss ≤
      |(onPositionClosed maxDailyLoss s orderId exitPrice quantity entryArg).realized_pnl|) :
    canTakeNewTrade (ops.foldl (riskStep maxDailyLoss)
      (onPositionClosed maxDailyLoss s orderId exitPrice quantity entryArg)) = false := by
  unfold canTakeNewTrade
  exact riskSteps_preserve_disabled maxDailyLoss ops _
    (onPositionClosed_kill maxDailyLoss s orderId exitPrice quantity entryArg h1 h2)

/-- Witness for C4 at concrete inputs: closing the 10-lot position at 40 books
a 600-point loss against a 500-point daily limit; a later profitable close of
a freshly registered position does not re-enable trading. -/
theorem kill_switch_latches_witness :
    canTakeNewTrade
      ([RiskOp.newPosition "ORD-2" { entry_price := some 10, entry_price_original := none },
        RiskOp.positionClosed "ORD-2" 1000 10 none].foldl (riskStep 500)
        (onPositionClosed 500 riskStateExample "ORD-1" 40 10 none)) = false :=
  kill_switch_latches 500 riskStateExample "ORD-1" 40 10 none
    [RiskOp.newPosition "ORD-2" { entry_price := some 10, entry_price_original := none },
     RiskOp.positionClosed "ORD-2" 1000 10 none]
    (by norm_num [riskStateExample, onNewPosition, RiskState.init])
    (by norm_num [riskStateExample, onNewPosition, RiskState.init, onPositionClosed,
      resolveEntryPrice, disableTrading])

/-- C3: `TradeRepository.apply_exit_fill` with non-positive quantity, with no
position record, or with a non-OPEN record changes nothing; against an OPEN
aggregate with positive open quantity it applies exactly `min(q, open_qty)`
(so the remaining open quantity is never negative) and the aggregate becomes
CLOSED with `closed_at` set exactly when the remaining open quantity is 0. -/
theorem exit_fill_clamped_and_closes (exitOrderId : Option String) (quantity : ℤ)
    (exitPrice : ℚ) (a : PositionAgg) :
    (∀ agg, quantity ≤ 0 → applyExitFill agg exitOrderId quantity exitPrice = agg) ∧
    (applyExitFill none exitOrderId quantity exitPrice = none) ∧
    (a.status ≠ .OPEN → applyExitFill (some a) exitOrderId quantity exitPrice = some a) ∧
    (a.status = .OPEN → 0 < a.quantity → 0 < quantity →
      ∃ a', applyExitFill (some a) exitOrderId quantity exitPrice = some a' ∧
        a'.quantity = a.quantity - min quantity a.quantity ∧
        0 ≤ a'.quantity ∧
        a'.closed_quantity = a.closed_quantity + min quantity a.quantity ∧
        ((a'.status = .CLOSED ∧ a'.closed_at = true) ↔ a'.quantity = 0)) := by
  refine ⟨?_, ?_, ?_, ?_⟩
  · intro agg hq
    unfold applyExitFill
    rw [if_pos hq]
  · unfold applyExitFill
    split_ifs <;> rfl
  · intro hst
    unfold applyExitFill
    by_cases hq : quantity ≤ 0
    · rw [if_pos hq]
    · rw [if_neg hq]
      dsimp only
      rw [if_pos hst]
  · intro hst hqty hq
    unfold applyExitFill
    rw [if_neg (not_le.mpr hq)]
    dsimp only
    rw [if_neg (by simp [hst]), if_neg (not_le.mpr hqty)]
    refine ⟨_, rfl, rfl, ?_, rfl, ?_⟩
    · simp [sub_nonneg, min_le_right]
    · constructor
      · rintro ⟨hcl, -⟩
        by_contra hne
        rw [if_neg hne] at hcl
        rw [hst] at hcl
        exact absurd hcl (by decide)
      · intro hz
        rw [if_pos hz, if_pos hz]
        exact ⟨rfl, rfl⟩

/-- Witness for C3 at a concrete aggregate: an over-reported 80-lot exit
against 50 open lots is clamped to 50, drives the open quantity to exactly 0
and closes the aggregate. -/
theorem exit_fill_clamped_and_closes_witness :
    applyExitFill none (some "X-1") 80 110 = none ∧
    ∃ a', applyExitFill (some openAggExample) (some "X-1") 80 110 = some a' ∧
      a'.quantity = openAggExample.quantity - min 80 openAggExample.quantity ∧
      0 ≤ a'.quantity ∧
      a'.closed_quantity = openAggExample.closed_quantity + min 80 openAggExample.quantity ∧
      ((a'.status = .CLOSED ∧ a'.closed_at = true) ↔ a'.quantity = 0) :=
  ⟨(exit_fill_clamped_and_closes (some "X-1") 80 110 openAggExample).2.1,
   (exit_fill_clamped_and_closes (some "X-1") 80 110 openAggExample).2.2.2
     rfl (by decide) (by decide)⟩

/-- C7: with a positive entry price, positive lot size and non-negative
percentage, the quantity `calculate_quantity` computes in `percent` mode is
monotonically non-decreasing in `availableCapital`, and is always either 0 or
a positive multiple of the lot size. -/
theorem calculate_quantity_percent_monotone (value entryPrice : ℚ) (lotSize : ℤ)
    (c1 c2 : ℚ) (he : 0 < entryPrice) (hl : 0 < lotSize) (hv : 0 ≤ value)
    (hc : c1 ≤ c2) :
    ∃ q1 q2 : ℚ,
      calculate_quantity c1 .percent value entryPrice lotSize = .ok q1 ∧
      calculate_quantity c2 .percent value entryPrice lotSize = .ok q2 ∧
      q1 ≤ q2 ∧
      (q1 = 0 ∨ ∃ k : ℤ, 0 < k ∧ q1 = (k : ℚ) * (lotSize : ℚ)) := by
  have hel : (0 : ℚ) < entryPrice * (lotSize : ℚ) :=
    mul_pos he (by exact_mod_cast hl)
  have hlq : (0 : ℚ) < (lotSize : ℚ) := by exact_mod_cast hl
  have hm : ⌊c1 * value / 100 / (entryPrice * (lotSize : ℚ))⌋ ≤
      ⌊c2 * value / 100 / (entryPrice * (lotSize : ℚ))⌋ := by
    apply Int.floor_le_floor
    apply (div_le_div_iff_of_pos_right hel).mpr
    apply (div_le_div_iff_of_pos_right (by norm_num : (0:ℚ) < 100)).mpr
    exact mul_le_mul_of_nonneg_right hc hv
  unfold calculate_quantity
  rw [if_neg (not_le.mpr he), if_neg (not_le.mpr he)]
  dsimp only
  set m1 := ⌊c1 * value / 100 / (entryPrice * (lotSize : ℚ))⌋ with hm1
  set m2 := ⌊c2 * value / 100 / (entryPrice * (lotSize : ℚ))⌋ with hm2
  by_cases h1 : m1 ≤ 0
  · rw [if_pos h1]
    by_cases h2 : m2 ≤ 0
    · exact ⟨0, 0, rfl, by rw [if_pos h2], le_refl 0, Or.inl rfl⟩
    · refine ⟨0, (m2 : ℚ) * (lotSize : ℚ), rfl, by rw [if_neg h2], ?_, Or.inl rfl⟩
      have : (0 : ℚ) < (m2 : ℚ) := by exact_mod_cast not_le.mp h2
      positivity
  · have h2 : ¬m2 ≤ 0 := fun h => h1 (le_trans hm h)
    rw [if_neg h1, if_neg h2]
    refine ⟨(m1 : ℚ) * (lotSize : ℚ), (m2 : ℚ) * (lotSize : ℚ), rfl, rfl, ?_, ?_⟩
    · exact mul_le_mul_of_nonneg_right (by exact_mod_cast hm) (le_of_lt hlq)
    · exact Or.inr ⟨m1, not_le.mp h1, rfl⟩

/-- Witness for C7 at concrete inputs: growing capital from 100000 to 150000
at 10% sizing, entry 50, lot 25 yields quantities that are non-decreasing
multiples of the lot size. -/
theorem calculate_quantity_percent_monotone_witness :
    ∃ q1 q2 : ℚ,
      calculate_quantity 100000 .percent 10 50 25 = .ok q1 ∧
      calculate_quantity 150000 .percent 10 50 25 = .ok q2 ∧
      q1 ≤ q2 ∧
      (q1 = 0 ∨ ∃ k : ℤ, 0 < k ∧ q1 = (k : ℚ) * ((25 : ℤ) : ℚ)) :=
  calculate_quantity_percent_monotone 10 50 25 100000 150000
    (by norm_num) (by norm_num) (by norm_num) (by norm_num)

/-- Once `breakeven_triggered` is latched, one more `on_candle_close` pass
keeps it latched and leaves `sl_price` untouched. -/
lemma onCandleClosePos_latched (cfg : ExitConfig) (ltp : ℚ) (p : ExitPosition)
    (h : p.breakeven_triggered = true) :
    (onCandleClosePos cfg ltp p).breakeven_triggered = true ∧
    (onCandleClosePos cfg ltp p).sl_price = p.sl_price := by
  unfold onCandleClosePos
  by_cases h1 : ltp ≤ 0
  · rw [if_pos h1]
    exact ⟨h, rfl⟩
  · rw [if_neg h1]
    dsimp only
    rw [h]
    simp

/-- The latch persists over any sequence of candle closes with an unchanged
stop price. -/
lemma onCandleClosePos_fold_latched (cfg : ExitConfig) (ltps : List ℚ) (p : ExitPosition)
    (h : p.breakeven_triggered = true) :
    (ltps.foldl (fun q l => onCandleClosePos cfg l q) p).breakeven_triggered = true ∧
    (ltps.foldl (fun q l => onCandleClosePos cfg l q) p).sl_price = p.sl_price := by
  induction ltps generalizing p with
  | nil => exact ⟨h, rfl⟩
  | cons l ls ih =>
    simp only [List.foldl_cons]
    obtain ⟨hb, hs⟩ := onCandleClosePos_latched cfg l p h
    obtain ⟨hb', hs'⟩ := ih (onCandleClosePos cfg l p) hb
    exact ⟨hb', by rw [hs', hs]⟩

/-- C5: with breakeven enabled, (i) once `breakeven_triggered` is set for a
position it is never reset by any sequence of `on_candle_close` calls and the
stop price is never changed again (in particular the trailing branch never
lowers it); and (ii) while breakeven has not engaged, a call that does not
engage it moves the stop only via the trailing branch: the stop never
decreases, and it changes only to `ltp * (1 - sl_pct/100)` and only when that
strictly exceeds the current stop. -/
theorem breakeven_latch_and_trailing_monotone (cfg : ExitConfig) (p : ExitPosition)
    (ltps : List ℚ) (hbe : cfg.breakeven_enabled = true) :
    (p.breakeven_triggered = true →
      (ltps.foldl (fun q l => onCandleClosePos cfg l q) p).breakeven_triggered = true ∧
      (ltps.foldl (fun q l => onCandleClosePos cfg l q) p).sl_price = p.sl_price) ∧
    (∀ ltp : ℚ, p.breakeven_triggered = false →
      (onCandleClosePos cfg ltp p).breakeven_triggered = false →
      p.sl_price ≤ (onCandleClosePos cfg ltp p).sl_price ∧
      ((onCandleClosePos cfg ltp p).sl_price ≠ p.sl_price →
        (onCandleClosePos cfg ltp p).sl_price = ltp * (1 - cfg.sl_pct / 100) ∧
        p.sl_price < ltp * (1 - cfg.sl_pct / 100))) := by
  constructor
  · intro h
    exact onCandleClosePos_fold_latched cfg ltps p h
  · intro ltp hbt hres
    unfold onCandleClosePos at hres ⊢
    by_cases h1 : ltp ≤ 0
    · rw [if_pos h1] at hres ⊢
      exact ⟨le_refl _, fun hne => absurd rfl hne⟩
    · rw [if_neg h1] at hres ⊢
      dsimp only at hres ⊢
      by_cases hbk : cfg.breakeven_enabled = true ∧
          ¬p.breakeven_triggered = true ∧
          (ltp - p.entry_price_original) / p.entry_price_original * 100 ≥
            cfg.breakeven_trigger_pct
      · exfalso
        rw [if_pos hbk] at hres
        dsimp only at hres
        simp at hres
      · rw [if_neg hbk] at hres ⊢
        dsimp only at hres ⊢
        by_cases htr : cfg.trailing_sl = true ∧
            ¬p.breakeven_triggered = true ∧
            ltp * (1 - cfg.sl_pct / 100) > p.sl_price
        · rw [if_pos htr]
          exact ⟨le_of_lt htr.2.2, fun _ => ⟨rfl, htr.2.2⟩⟩
        · rw [if_neg htr]
          exact ⟨le_refl _, fun hne => absurd rfl hne⟩

/-- A concrete tracked position: entered at 100, stop at 95, breakeven not yet
engaged. -/
def exitPositionExample : ExitPosition :=
  { sl_price := 95, highest_price := 100, lowest_price := 100,
    breakeven_triggered := false, entry_price_original := 100 }

/-- Trailing-stop configuration used by the C5 witness: 5% stop, breakeven at
+2%, trailing enabled. -/
def exitConfigExample : ExitConfig :=
  { sl_pct := 5, breakeven_enabled := true, breakeven_trigger_pct := 2,
    trailing_sl := true }

/-- Witness for C5 at concrete inputs: a position latched at breakeven keeps
its stop through the candle closes 103, 90, 80; and an unlatched position at
ltp 99 (below the +2% trigger) only ever raises its stop. -/
theorem breakeven_latch_and_trailing_monotone_witness :
    (({ exitPositionExample with breakeven_triggered := true } : ExitPosition).breakeven_triggered = true →
      ([103, 90, 80].foldl (fun q l => onCandleClosePos exitConfigExample l q)
        { exitPositionExample with breakeven_triggered := true }).breakeven_triggered = true ∧
      ([103, 90, 80].foldl (fun q l => onCandleClosePos exitConfigExample l q)
        { exitPositionExample with breakeven_triggered := true }).sl_price =
        ({ exitPositionExample with breakeven_triggered := true } : ExitPosition).sl_price) ∧
    (exitPositionExample.breakeven_triggered = false →
      (onCandleClosePos exitConfigExample 99 exitPositionExample).breakeven_triggered = false →
      exitPositionExample.sl_price ≤
        (onCandleClosePos exitConfigExample 99 exitPositionExample).sl_price ∧
      ((onCandleClosePos exitConfigExample 99 exitPositionExample).sl_price ≠
          exitPositionExample.sl_price →
        (onCandleClosePos exitConfigExample 99 exitPositionExample).sl_price =
          99 * (1 - exitConfigExample.sl_pct / 100) ∧
        exitPositionExample.sl_price < 99 * (1 - exitConfigExample.sl_pct / 100))) :=
  ⟨(breakeven_latch_and_trailing_monotone exitConfigExample
      { exitPositionExample with breakeven_triggered := true } [103, 90, 80] rfl).1,
   (breakeven_latch_and_trailing_monotone exitConfigExample
      exitPositionExample [103, 90, 80] rfl).2 99⟩

/-- A positive-quantity fill is kept by the `apply_entry_fill` skip filter. -/
lemma posFilter_cons_pos (f : ℤ × ℚ) (l : List (ℤ × ℚ)) (hf : 0 < f.1) :
    posFilter (f :: l) = f :: posFilter l := by
  simp [posFilter, List.filter_cons, hf]

/-- A non-positive-quantity fill is dropped by the `apply_entry_fill` skip
filter. -/
lemma posFilter_cons_nonpos (f : ℤ × ℚ) (l : List (ℤ × ℚ)) (hf : f.1 ≤ 0) :
    posFilter (f :: l) = posFilter l := by
  simp [posFilter, List.filter_cons, not_lt.mpr hf]

/-- Skipping a non-positive fill leaves `posQty` unchanged; a positive fill
adds its quantity. -/
lemma posQty_cons (f : ℤ × ℚ) (l : List (ℤ × ℚ)) :
    posQty (f :: l) = (if 0 < f.1 then f.1 else 0) + posQty l := by
  by_cases h : 0 < f.1
  · rw [if_pos h]
    unfold posQty
    rw [posFilter_cons_pos f l h]
    simp
  · rw [if_neg h]
    unfold posQty
    rw [posFilter_cons_nonpos f l (not_lt.mp h)]
    simp

/-- Skipping a non-positive fill leaves `posNotional` unchanged; a positive
fill adds its notional. -/
lemma posNotional_cons (f : ℤ × ℚ) (l : List (ℤ × ℚ)) :
    posNotional (f :: l) = (if 0 < f.1 then (f.1 : ℚ) * f.2 else 0) + posNotional l := by
  by_cases h : 0 < f.1
  · rw [if_pos h]
    unfold posNotional
    rw [posFilter_cons_pos f l h]
    simp
  · rw [if_neg h]
    unfold posNotional
    rw [posFilter_cons_nonpos f l (not_lt.mp h)]
    simp

/-- Merging one positive fill into an OPEN aggregate with positive open
quantity: the open quantity adds up and the weighted-entry numerator adds the
fill's notional. -/
lemma applyEntryFill_pos_step (a : PositionAgg) (orderId : Option String)
    (q : ℤ) (px : ℚ) (hq : 0 < q) (ha : 0 < a.quantity) :
    ∃ b, applyEntryFill (some a) orderId q px = some b ∧
      b.quantity = a.quantity + q ∧
      b.entry_price * (b.quantity : ℚ) =
        a.entry_price * (a.quantity : ℚ) + (q : ℚ) * px := by
  have hT : 0 < a.quantity + q := add_pos ha hq
  unfold applyEntryFill
  rw [if_neg (not_le.mpr hq)]
  dsimp only
  refine ⟨_, rfl, rfl, ?_⟩
  dsimp only
  rw [if_pos hT]
  have hTne : ((a.quantity + q : ℤ) : ℚ) ≠ 0 :=
    Int.cast_ne_zero.mpr (ne_of_gt hT)
  field_simp
  ring

/-- Folding a fill list into an OPEN aggregate with positive open quantity
adds `posQty` to the open quantity and `posNotional` to the weighted-entry
numerator. -/
lemma entryFold_some (orderId : Option String) (l : List (ℤ × ℚ)) (a : PositionAgg)
    (ha : 0 < a.quantity) :
    ∃ a', List.foldl (entryFillStep orderId) (some a) l = some a' ∧
      a'.quantity = a.quantity + posQty l ∧ 0 < a'.quantity ∧
      a'.entry_price * (a'.quantity : ℚ) =
        a.entry_price * (a.quantity : ℚ) + posNotional l := by
  induction l generalizing a with
  | nil =>
    exact ⟨a, rfl, by simp [posQty, posFilter], ha, by simp [posNotional, posFilter]⟩
  | cons f l ih =>
    by_cases hf : f.1 ≤ 0
    · have hstep : entryFillStep orderId (some a) f = some a := by
        unfold entryFillStep applyEntryFill
        rw [if_pos hf]
      rw [List.foldl_cons, hstep]
      obtain ⟨a', h1, h2, h3, h4⟩ := ih a ha
      refine ⟨a', h1, ?_, h3, ?_⟩
      · rw [h2, posQty_cons, if_neg (not_lt.mpr hf)]
        ring
      · rw [h4, posNotional_cons, if_neg (not_lt.mpr hf)]
        ring
    · push_neg at hf
      obtain ⟨b, hb, hbq, hbe⟩ := applyEntryFill_pos_step a orderId f.1 f.2 hf ha
      have hbpos : 0 < b.quantity := by rw [hbq]; exact add_pos ha hf
      obtain ⟨a', h1, h2, h3, h4⟩ := ih b hbpos
      refine ⟨a', ?_, ?_, h3, ?_⟩
      · rw [List.foldl_cons]
        show List.foldl (entryFillStep orderId) (entryFillStep orderId (some a) f) l = some a'
        rw [show entryFillStep orderId (some a) f = some b from hb]
        exact h1
      · rw [h2, hbq, posQty_cons, if_pos hf]
        ring
      · rw [h4, hbe, posNotional_cons, if_pos hf]
        ring

/-- Folding a fill list into an empty aggregate: with no positive fill nothing
is created; otherwise the aggregate carries total positive quantity `posQty`
and weighted-entry numerator `posNotional`. -/
lemma entryFold_none (orderId : Option String) (l : List (ℤ × ℚ)) :
    (posFilter l = [] → List.foldl (entryFillStep orderId) none l = none) ∧
    (posFilter l ≠ [] →
      ∃ a', List.foldl (entryFillStep orderId) none l = some a' ∧
        a'.quantity = posQty l ∧ 0 < a'.quantity ∧
        a'.entry_price * (a'.quantity : ℚ) = posNotional l) := by
  induction l with
  | nil => exact ⟨fun _ => rfl, fun h => absurd rfl h⟩
  | cons f l ih =>
    by_cases hf : f.1 ≤ 0
    · have hstep : entryFillStep orderId none f = none := by
        unfold entryFillStep applyEntryFill
        rw [if_pos hf]
      have hfilter := posFilter_cons_nonpos f l hf
      constructor
      · intro h
        rw [List.foldl_cons, hstep]
        exact ih.1 (by rw [← hfilter]; exact h)
      · intro h
        rw [List.foldl_cons, hstep]
        obtain ⟨a', h1, h2, h3, h4⟩ := ih.2 (by rw [← hfilter]; exact h)
        refine ⟨a', h1, ?_, h3, ?_⟩
        · rw [h2, posQty_cons, if_neg (not_lt.mpr hf)]
          ring
        · rw [h4, posNotional_cons, if_neg (not_lt.mpr hf)]
          ring
    · push_neg at hf
      constructor
      · intro h
        rw [posFilter_cons_pos f l hf] at h
        exact absurd h (List.cons_ne_nil f _)
      · intro h
        have hcreate : entryFillStep orderId none f =
            some { quantity := f.1, opened_quantity := f.1, closed_quantity := 0,
                   entry_price := f.2, exit_price := none, last_price := f.2,
                   realized_pnl := 0, unrealized_pnl := 0, net_pnl := 0,
                   order_ids := appendOrderId [] orderId, exit_order_ids := [],
                   status := .OPEN, closed_at := false } := by
          unfold entryFillStep applyEntryFill
          rw [if_neg (not_le.mpr hf)]
        obtain ⟨a', h1, h2, h3, h4⟩ := entryFold_some orderId l
          { quantity := f.1, opened_quantity := f.1, closed_quantity := 0,
            entry_price := f.2, exit_price := none, last_price := f.2,
            realized_pnl := 0, unrealized_pnl := 0, net_pnl := 0,
            order_ids := appendOrderId [] orderId, exit_order_ids := [],
            status := .OPEN, closed_at := false } hf
        refine ⟨a', ?_, ?_, h3, ?_⟩
        · rw [List.foldl_cons]
          show List.foldl (entryFillStep orderId) (entryFillStep orderId none f) l = some a'
          rw [hcreate]
          exact h1
        · rw [h2, posQty_cons, if_pos hf]
        · rw [h4, posNotional_cons, if_pos hf]
          dsimp only
          ring

/-- `posQty` only depends on the multiset of fills. -/
lemma posQty_perm (l l' : List (ℤ × ℚ)) (h : l.Perm l') : posQty l = posQty l' := by
  unfold posQty posFilter
  exact List.Perm.sum_eq (List.Perm.map _ (List.Perm.filter _ h))

/-- `posNotional` only depends on the multiset of fills. -/
lemma posNotional_perm (l l' : List (ℤ × ℚ)) (h : l.Perm l') :
    posNotional l = posNotional l' := by
  unfold posNotional posFilter
  exact List.Perm.sum_eq (List.Perm.map _ (List.Perm.filter _ h))

/-- C2: folding any sequence of entry fills through `apply_entry_fill` with no
pre-existing OPEN aggregate yields an aggregate whose entry price is the
quantity-weighted average `sum(q_i*p_i)/sum(q_i)` of the positive-quantity
fills; delivering the same fills in any other order yields the same average;
fills of 30@100 then 20@110 average to 104; and fills with quantity `<= 0`
are no-ops. -/
theorem entry_fill_weighted_average (orderId : Option String)
    (fills fills' : List (ℤ × ℚ)) (hperm : fills.Perm fills')
    (hne : posFilter fills ≠ []) :
    (∀ (agg : Option PositionAgg) (q : ℤ) (px : ℚ), q ≤ 0 →
      applyEntryFill agg orderId q px = agg) ∧
    (∃ a, List.foldl (entryFillStep orderId) none fills = some a ∧
      0 < a.quantity ∧ a.quantity = posQty fills ∧
      a.entry_price = posNotional fills / (posQty fills : ℚ)) ∧
    (∃ a', List.foldl (entryFillStep orderId) none fills' = some a' ∧
      a'.entry_price = posNotional fills / (posQty fills : ℚ)) ∧
    (∃ b, List.foldl (entryFillStep orderId) none
        [((30 : ℤ), (100 : ℚ)), (20, 110)] = some b ∧
      b.entry_price = 104 ∧ b.quantity = 50) := by
  have havg : ∀ (l : List (ℤ × ℚ)), posFilter l ≠ [] →
      ∃ a, List.foldl (entryFillStep orderId) none l = some a ∧
        0 < a.quantity ∧ a.quantity = posQty l ∧
        a.entry_price = posNotional l / (posQty l : ℚ) := by
    intro l hl
    obtain ⟨a, h1, h2, h3, h4⟩ := (entryFold_none orderId l).2 hl
    have hq : (0 : ℤ) < posQty l := h2 ▸ h3
    have hqne : ((posQty l : ℤ) : ℚ) ≠ 0 := Int.cast_ne_zero.mpr (ne_of_gt hq)
    refine ⟨a, h1, h3, h2, ?_⟩
    rw [eq_div_iff hqne, ← h2]
    exact h4
  refine ⟨?_, havg fills hne, ?_, ?_⟩
  · intro agg q px hq
    unfold applyEntryFill
    rw [if_pos hq]
  · have hne' : posFilter fills' ≠ [] := by
      intro h
      exact hne (List.Perm.eq_nil ((List.Perm.filter _ hperm).trans (h ▸ List.Perm.refl _)))
    obtain ⟨a', h1, h2, h3, h4⟩ := havg fills' hne'
    refine ⟨a', h1, ?_⟩
    rw [h4, posQty_perm fills fills' hperm, posNotional_perm fills fills' hperm]
  · refine ⟨_, rfl, ?_, ?_⟩ <;>
      norm_num [entryFillStep, applyEntryFill, computePnls]

/-- Witness for C2 at the concrete scenario: fills 30@100 then 20@110 (and in
the swapped order) both average to entry price 104 on 50 lots. -/
theorem entry_fill_weighted_average_witness :
    ∃ b, List.foldl (entryFillStep (some "ORD-1")) none
        [((30 : ℤ), (100 : ℚ)), (20, 110)] = some b ∧
      b.entry_price = 104 ∧ b.quantity = 50 :=
  (entry_fill_weighted_average (some "ORD-1")
    [((30 : ℤ), (100 : ℚ)), (20, 110)] [(20, 110), (30, 100)]
    (List.Perm.swap _ _ _) (by decide)).2.2.2

/-- Invariant of the partial-fill loop of `_process_market_order`: with a
positive market price and fill fractions in `[0, 1]`, price variations at
least `-1/100`, a non-negative starting balance and a total filled quantity
within the order quantity, the loop keeps the balance non-negative and the
total filled quantity between 0 and the order quantity. -/
lemma marketFillLoop_inv (quantity : ℤ) (currentPrice : ℚ)
    (choices : List (ℚ × ℚ)) (s : MarketFillState)
    (hp : 0 < currentPrice)
    (hc : ∀ c ∈ choices, -(1/100) ≤ c.1 ∧ 0 ≤ c.2 ∧ c.2 ≤ 1)
    (hb : 0 ≤ s.balance) (h0 : 0 ≤ s.totalFilled) (hq : s.totalFilled ≤ quantity) :
    0 ≤ (marketFillLoop quantity currentPrice choices s).balance ∧
    0 ≤ (marketFillLoop quantity currentPrice choices s).totalFilled ∧
    (marketFillLoop quantity currentPrice choices s).totalFilled ≤ quantity := by
  induction choices generalizing s with
  | nil =>
    exact ⟨hb, h0, hq⟩
  | cons c rest ih =>
    rw [marketFillLoop]
    by_cases h1 : quantity ≤ s.totalFilled
    · rw [if_pos h1]
      exact ⟨hb, h0, hq⟩
    · rw [if_neg h1]
      dsimp only
      have hrem : (0 : ℤ) < quantity - s.totalFilled := by omega
      have hfq : 0 ≤ (if rest = [] then quantity - s.totalFilled
          else ⌊((quantity - s.totalFilled : ℤ) : ℚ) * c.2⌋) ∧
          (if rest = [] then quantity - s.totalFilled
          else ⌊((quantity - s.totalFilled : ℤ) : ℚ) * c.2⌋) ≤ quantity - s.totalFilled := by
        split_ifs with hr
        · exact ⟨le_of_lt hrem, le_refl _⟩
        · constructor
          · apply Int.floor_nonneg.mpr
            apply mul_nonneg
            · exact_mod_cast le_of_lt hrem
            · exact (hc c (List.mem_cons_self c rest)).2.1
          · have hle : ((quantity - s.totalFilled : ℤ) : ℚ) * c.2 ≤
                ((quantity - s.totalFilled : ℤ) : ℚ) :=
              mul_le_of_le_one_right (by exact_mod_cast le_of_lt hrem)
                (hc c (List.mem_cons_self c rest)).2.2
            calc ⌊((quantity - s.totalFilled : ℤ) : ℚ) * c.2⌋
                ≤ ⌊((quantity - s.totalFilled : ℤ) : ℚ)⌋ := Int.floor_le_floor hle
              _ = quantity - s.totalFilled := Int.floor_intCast _
      have hprice : 0 ≤ currentPrice * (1 + c.1) := by
        apply mul_nonneg (le_of_lt hp)
        have := (hc c (List.mem_cons_self c rest)).1
        linarith
      have hcost : 0 ≤ currentPrice * (1 + c.1) *
          ((if rest = [] then quantity - s.totalFilled
            else ⌊((quantity - s.totalFilled : ℤ) : ℚ) * c.2⌋ : ℤ) : ℚ) := by
        apply mul_nonneg hprice
        exact_mod_cast hfq.1
      by_cases h2 : currentPrice * (1 + c.1) *
          ((if rest = [] then quantity - s.totalFilled
            else ⌊((quantity - s.totalFilled : ℤ) : ℚ) * c.2⌋ : ℤ) : ℚ) > s.balance
      · rw [if_pos h2]
        exact ⟨hb, h0, hq⟩
      · rw [if_neg h2]
        apply ih
        · intro d hd
          exact hc d (List.mem_cons_of_mem c hd)
        · dsimp only
          rw [sub_nonneg]
          exact not_lt.mp h2
        · dsimp only
          exact add_nonneg h0 hfq.1
        · dsimp only
          omega

/-- C9: over all random choices drawn by `_process_market_order` for a
simulated MARKET BUY with a known positive price (price variations in
`[-1/100, 1/100]`, partial-fill fractions in `[3/10, 7/10]`), slices are taken
only while affordable: the cash balance never goes negative and the total
filled quantity never exceeds the order quantity; when nothing fills the
order is REJECTED and no fill callback fires; otherwise the callback event
reports `is_partial = true` exactly when the total filled quantity is below
the order quantity. -/
theorem market_order_fills_within_budget (balance : ℚ) (quantity : ℤ)
    (currentPrice : ℚ) (choices : List (ℚ × ℚ))
    (hb : 0 ≤ balance) (hp : 0 < currentPrice) (hq : 0 < quantity)
    (hc : ∀ c ∈ choices, -(1/100) ≤ c.1 ∧ c.1 ≤ 1/100 ∧ 3/10 ≤ c.2 ∧ c.2 ≤ 7/10) :
    (0 ≤ (processMarketOrderBuy balance quantity currentPrice choices).balance ∧
     0 ≤ (processMarketOrderBuy balance quantity currentPrice choices).totalFilled ∧
     (processMarketOrderBuy balance quantity currentPrice choices).totalFilled ≤
       quantity) ∧
    ((processMarketOrderBuy balance quantity currentPrice choices).totalFilled = 0 →
      (processMarketOrderBuy balance quantity currentPrice choices).status =
        .REJECTED ∧
      (processMarketOrderBuy balance quantity currentPrice choices).event = none) ∧
    ((processMarketOrderBuy balance quantity currentPrice choices).totalFilled ≠ 0 →
      ∃ ev, (processMarketOrderBuy balance quantity currentPrice choices).event =
          some ev ∧
        ev.quantity = quantity ∧
        ev.filled_quantity =
          (processMarketOrderBuy balance quantity currentPrice choices).totalFilled ∧
        ( FillEvent.is_partial ev = true ↔
          (processMarketOrderBuy balance quantity currentPrice choices).totalFilled <
            quantity) ∧
        ((processMarketOrderBuy balance quantity currentPrice choices).status =
            .PARTIAL ↔
          (processMarketOrderBuy balance quantity currentPrice choices).totalFilled <
            quantity) ∧
        ((processMarketOrderBuy balance quantity currentPrice choices).status =
            .FILLED ↔
          (processMarketOrderBuy balance quantity currentPrice choices).totalFilled =
            quantity)) := by
  have hc' : ∀ c ∈ choices, -(1/100) ≤ c.1 ∧ 0 ≤ c.2 ∧ c.2 ≤ 1 := by
    intro c hmem
    obtain ⟨h1, _, h3, h4⟩ := hc c hmem
    exact ⟨h1, by linarith, by linarith⟩
  have hinv := marketFillLoop_inv quantity currentPrice choices
    { balance := balance, totalFilled := 0, totalCost := 0, fills := [] }
    hp hc' hb (le_refl 0) (le_of_lt hq)
  unfold processMarketOrderBuy
  by_cases hz : (marketFillLoop quantity currentPrice choices
      { balance := balance, totalFilled := 0, totalCost := 0, fills := [] }).totalFilled = 0
  · rw [if_pos hz]
    refine ⟨⟨hinv.1, le_refl 0, le_of_lt hq⟩, fun _ => ⟨rfl, rfl⟩, fun h => absurd rfl h⟩
  · rw [if_neg hz]
    dsimp only
    refine ⟨⟨hinv.1, hinv.2.1, hinv.2.2⟩, fun h => absurd h hz, fun _ => ?_⟩
    refine ⟨_, rfl, rfl, rfl, ?_, ?_, ?_⟩
    · simp
    · by_cases hlt : (marketFillLoop quantity currentPrice choices
          { balance := balance, totalFilled := 0, totalCost := 0,
            fills := [] }).totalFilled < quantity
      · simp [hlt]
      · simp [hlt]
    · by_cases hlt : (marketFillLoop quantity currentPrice choices
          { balance := balance, totalFilled := 0, totalCost := 0,
            fills := [] }).totalFilled < quantity
      · simp only [if_pos hlt]
        constructor
        · intro hcontr
          exact absurd hcontr (by decide)
        · intro heq
          omega
      · simp only [if_neg hlt]
        constructor
        · intro _
          omega
        · intro _
          trivial

/-- Witness for C9 at concrete inputs: a MARKET BUY for 100 units at price 50
with cash 3000 and two half-fill slices affords only the first 50-unit slice;
the event reports a partial fill. -/
theorem market_order_fills_within_budget_witness :
    (0 ≤ (processMarketOrderBuy 3000 100 50 [(0, 1/2), (0, 1/2)]).balance ∧
     0 ≤ (processMarketOrderBuy 3000 100 50 [(0, 1/2), (0, 1/2)]).totalFilled ∧
     (processMarketOrderBuy 3000 100 50 [(0, 1/2), (0, 1/2)]).totalFilled ≤ 100) ∧
    ∃ ev, (processMarketOrderBuy 3000 100 50 [(0, 1/2), (0, 1/2)]).event = some ev ∧
      FillEvent.is_partial ev = true :=
  have h := market_order_fills_within_budget 3000 100 50 [(0, 1/2), (0, 1/2)]
    (by norm_num) (by norm_num) (by norm_num)
    (by
      intro c hmem
      simp only [List.mem_cons, List.mem_singleton] at hmem
      rcases hmem with rfl | rfl | h
      · norm_num
      · norm_num
      · exact absurd h (List.not_mem_nil c))
  ⟨h.1, by
    obtain ⟨ev, hev, _, _, hpart, _, _⟩ := h.2.2 (by norm_num [processMarketOrderBuy, marketFillLoop])
    exact ⟨ev, hev, hpart.mpr (by norm_num [processMarketOrderBuy, marketFillLoop])⟩⟩

end TradeExec
